import Mathlib

/-!
Verification of the assistant-invocation pipeline of a Bitbucket PR-review
bot (TypeScript sources under `src/`).  The TypeScript functions are
embedded shallowly as computable Lean functions; JavaScript string and
regex semantics are modelled explicitly where the code relies on them.
-/

namespace ClaudeBitbucket

/-! ## JavaScript string helpers -/

/-- Word characters of the JS regex class `\w` (and hence of `\b`). -/
def isWordChar (c : Char) : Bool :=
  (('a' ≤ c) && (c ≤ 'z')) || (('A' ≤ c) && (c ≤ 'Z')) ||
  (('0' ≤ c) && (c ≤ '9')) || (c == '_')

/-- Line terminators that the JS regex `.` (dot) does NOT match. -/
def isLineTerm (c : Char) : Bool :=
  (c == '\n') || (c == '\r') || (c == Char.ofNat 0x2028) || (c == Char.ofNat 0x2029)

/-- Characters matched by the JS regex `.` (dot, no `s` flag). -/
def isDotChar (c : Char) : Bool := !(isLineTerm c)

/-- Whitespace removed by `String.prototype.trim` (the cases that occur in
practice: ASCII whitespace, NBSP, BOM, Unicode spaces and line separators). -/
def isJsSpace (c : Char) : Bool :=
  (c == ' ') || (c == '\t') || (c == '\n') || (c == '\r') ||
  (c == Char.ofNat 0x0B) || (c == Char.ofNat 0x0C) ||
  (c == Char.ofNat 0xA0) || (c == Char.ofNat 0xFEFF) ||
  (c == Char.ofNat 0x1680) ||
  ((Char.ofNat 0x2000 ≤ c) && (c ≤ Char.ofNat 0x200A)) ||
  (c == Char.ofNat 0x2028) || (c == Char.ofNat 0x2029) ||
  (c == Char.ofNat 0x202F) || (c == Char.ofNat 0x205F) || (c == Char.ofNat 0x3000)

/-- Model of `String.prototype.trim` on a character list. -/
def jsTrimList (cs : List Char) : List Char :=
  ((cs.dropWhile isJsSpace).reverse.dropWhile isJsSpace).reverse

/-- Model of `String.prototype.trim`. -/
def jsTrim (s : String) : String := String.mk (jsTrimList s.data)

/-- Character-wise `toLowerCase`; exact for the ASCII range, which is the
only range the classifier patterns and trigger phrases exercise. -/
def jsLowerChar (c : Char) : Char :=
  if ('A' ≤ c) && (c ≤ 'Z') then Char.ofNat (c.toNat + 32) else c

/-- Model of `String.prototype.toLowerCase`, character-wise. -/
def jsToLower (cs : List Char) : List Char := cs.map jsLowerChar

/-- Boolean prefix test on character lists. -/
def isPrefixL : List Char → List Char → Bool
  | [], _ => true
  | _ :: _, [] => false
  | p :: ps, c :: cs => (p == c) && isPrefixL ps cs

/-! ## Glob Matcher (`src/project-config.ts`, `matchesPattern`)

The TypeScript compiles a glob pattern to a JS regex:
`**` becomes `.*`, `*` becomes `[^/]*`, `?` becomes `[^/]`, every other
character is escaped and matched literally, and the regex is anchored with
`^...$`.  Backslashes are first normalized to `/` on both sides.  Note the
asymmetry inherited from JS regexes: `[^/]` matches line terminators while
`.` does not. -/

/-- Tokens of the compiled glob pattern. -/
inductive Tok where
  | lit (c : Char)
  | star
  | globstar
  | qmark
  deriving DecidableEq, Repr

/-- Tokenize a (already separator-normalized) pattern.  `**` pairs are
taken greedily left to right, exactly as the global replace in the source. -/
def tokenize : List Char → List Tok
  | [] => []
  | '*' :: '*' :: rest => Tok.globstar :: tokenize rest
  | '*' :: rest => Tok.star :: tokenize rest
  | '?' :: rest => Tok.qmark :: tokenize rest
  | c :: rest => Tok.lit c :: tokenize rest

/-- Fuel-indexed anchored matcher for the compiled pattern.  Each recursive
call shrinks `ts.length + s.length`, so fuel `ts.length + s.length + 1`
always suffices (see `tokMatch`). -/
def goMatch : Nat → List Tok → List Char → Bool
  | 0, _, _ => false
  | _ + 1, [], [] => true
  | _ + 1, [], _ :: _ => false
  | _ + 1, Tok.lit _ :: _, [] => false
  | f + 1, Tok.lit c :: ts, x :: xs => (x == c) && goMatch f ts xs
  | _ + 1, Tok.qmark :: _, [] => false
  | f + 1, Tok.qmark :: ts, x :: xs => !(x == '/') && goMatch f ts xs
  | f + 1, Tok.star :: ts, [] => goMatch f ts []
  | f + 1, Tok.star :: ts, x :: xs =>
      goMatch f ts (x :: xs) || (!(x == '/') && goMatch f (Tok.star :: ts) xs)
  | f + 1, Tok.globstar :: ts, [] => goMatch f ts []
  | f + 1, Tok.globstar :: ts, x :: xs =>
      goMatch f ts (x :: xs) || (isDotChar x && goMatch f (Tok.globstar :: ts) xs)

/-- Anchored whole-string match of a token list against a string. -/
def tokMatch (ts : List Tok) (s : List Char) : Bool :=
  goMatch (ts.length + s.length + 1) ts s

/-- Normalize path separators: `replace(/\\/g, "/")`. -/
def normSlash (cs : List Char) : List Char :=
  cs.map fun c => if c == '\\' then '/' else c

/-- Model of `matchesPattern(filePath, pattern)` from `src/project-config.ts`. -/
def matchesPattern (filePath pattern : String) : Bool :=
  tokMatch (tokenize (normSlash pattern.data)) (normSlash filePath.data)

/-- Model of `shouldIncludeFile(filePath, include?, exclude?)` from
`src/project-config.ts`.  Absent optional arguments are `none`; JS treats
`undefined` and `[]` alike via the falsy `?.length` guards. -/
def shouldIncludeFile (filePath : String)
    (includes excludes : Option (List String)) : Bool :=
  if (excludes.getD []).any (fun pattern => matchesPattern filePath pattern) then
    false
  else if !(includes.getD []).isEmpty then
    (includes.getD []).any (fun pattern => matchesPattern filePath pattern)
  else
    true

/-! ## Tool Permission Resolver (`src/shared/constants.ts`) -/

/-- The `ToolConfigSet` interface. -/
structure ToolConfigSet where
  allowedTools : List String
  blockedTools : List String
  deriving DecidableEq, Repr

/-- The `ToolConfig` interface of `src/project-config.ts` (both fields
optional). -/
structure ToolConfig where
  allowed : Option (List String)
  blocked : Option (List String)
  deriving DecidableEq, Repr

def READ_ONLY_TOOLS : List String := ["Read", "Grep", "Glob"]

def BLOCKED_WRITE_TOOLS : List String := ["Write", "Edit", "MultiEdit", "Bash"]

def FULL_ACCESS_TOOLS : List String := ["Read", "Edit", "Write", "Grep", "Glob", "Bash"]

/-- Shape of the `TOOL_CONFIGS` constant. -/
structure ToolConfigsT where
  readOnly : ToolConfigSet
  fullAccess : ToolConfigSet

/-- The two built-in tool policies. -/
def TOOL_CONFIGS : ToolConfigsT :=
  { readOnly := { allowedTools := READ_ONLY_TOOLS, blockedTools := BLOCKED_WRITE_TOOLS }
    fullAccess := { allowedTools := FULL_ACCESS_TOOLS, blockedTools := [] } }

/-- Model of `mergeToolConfig(defaultConfig, projectConfig?)` from
`src/shared/constants.ts`.  The `allowed?.length` / `blocked?.length`
guards are falsy for both an absent field and an empty list. -/
def mergeToolConfig (defaultConfig : ToolConfigSet)
    (projectConfig : Option ToolConfig) : ToolConfigSet :=
  match projectConfig with
  | none => defaultConfig
  | some pc =>
      { allowedTools :=
          if !(pc.allowed.getD []).isEmpty then pc.allowed.getD []
          else defaultConfig.allowedTools
        blockedTools :=
          if !(pc.blocked.getD []).isEmpty then pc.blocked.getD []
          else defaultConfig.blockedTools }

/-! ## Request Classifier (`src/modes/tag.ts` / `src/shared/constants.ts`)

The classifier lowercases the request and runs two fixed lists of JS
regexes over it.  The regexes use only word alternations guarded by `\b`,
one `.*` sequencing pattern, and a `\?$` anchor; they are embedded as
decidable searches with explicit word-boundary checks. -/

/-- The `\b` condition to the left of a match that starts with a word
character: start of string or a preceding non-word character. -/
def boundaryBefore : Option Char → Bool
  | none => true
  | some c => !isWordChar c

/-- The `\b` condition to the right of a match that ends with a word
character: end of string or a following non-word character. -/
def boundaryAfter : List Char → Bool
  | [] => true
  | c :: _ => !isWordChar c

/-- Scan for an occurrence of `w` with `\b` on both sides; `prev` is the
character just before the current position. -/
def hasWordBGo (w : List Char) : Option Char → List Char → Bool
  | prev, [] => isPrefixL w [] && boundaryBefore prev
  | prev, c :: cs =>
      (isPrefixL w (c :: cs) && boundaryBefore prev &&
        boundaryAfter ((c :: cs).drop w.length))
      || hasWordBGo w (some c) cs

/-- Model of `/\b(w)\b/.test(s)` for a single literal alternative `w`. -/
def hasWordB (w : String) (s : List Char) : Bool := hasWordBGo w.data none s

/-- Tail of the `/\b(g1).*(g2)/` pattern: a run of `.`-characters followed
by one of the `g2` literals (no boundary on the right). -/
def seqTail (g2 : List String) : List Char → Bool
  | [] => g2.any (fun w => isPrefixL w.data [])
  | c :: cs => g2.any (fun w => isPrefixL w.data (c :: cs)) || (isDotChar c && seqTail g2 cs)

/-- Scanner for `/\b(g1).*(g2)/.test(s)`. -/
def seqPatGo (g1 g2 : List String) : Option Char → List Char → Bool
  | prev, [] =>
      g1.any (fun w => isPrefixL w.data [] && boundaryBefore prev && seqTail g2 [])
  | prev, c :: cs =>
      g1.any (fun w => isPrefixL w.data (c :: cs) && boundaryBefore prev &&
        seqTail g2 ((c :: cs).drop w.data.length))
      || seqPatGo g1 g2 (some c) cs

/-- Model of `/\b(g1).*(g2)/.test(s)`. -/
def seqPat (g1 g2 : List String) (s : List Char) : Bool := seqPatGo g1 g2 none s

/-- Model of `/\b(w1|w2|...)\b/.test(s)`. -/
def wordAltPat (ws : List String) (s : List Char) : Bool :=
  ws.any (fun w => hasWordB w s)

/-- Model of `ACTIONABLE_PATTERNS` from `src/shared/constants.ts`, as tests. -/
def ACTIONABLE_PATTERNS : List (List Char → Bool) :=
  [ fun s => wordAltPat
      ["fix", "change", "update", "add", "remove", "delete", "modify",
       "refactor", "implement", "create"] s,
    fun s => seqPat ["make it", "can you", "please", "could you"]
      ["change", "fix", "add", "update"] s,
    fun s => wordAltPat ["this should", "it should", "needs to"] s ]

/-- Model of `INFORMATIONAL_PATTERNS` from `src/shared/constants.ts`, as tests. -/
def INFORMATIONAL_PATTERNS : List (List Char → Bool) :=
  [ fun s => wordAltPat
      ["what", "why", "how", "explain", "review", "check", "look at", "analyze"] s,
    fun s => wordAltPat ["does this", "is this", "are there"] s,
    fun s => match s.getLast? with | some c => c == '?' | none => false ]

/-- Model of `classifyRequest(request)` from `src/modes/tag.ts`: `true` means
Actionable, `false` means Informational. -/
def classifyRequest (request : String) : Bool :=
  let lower := jsToLower request.data
  if ACTIONABLE_PATTERNS.any (fun p => p lower) then true
  else if INFORMATIONAL_PATTERNS.any (fun p => p lower) then false
  else false

/-- First index at which `needle` occurs in `hay` (JS `indexOf`). -/
def indexOfLGo (needle : List Char) : List Char → Nat → Option Nat
  | hay, i =>
      if isPrefixL needle hay then some i
      else match hay with
        | [] => none
        | _ :: t => indexOfLGo needle t (i + 1)

/-- JS `hay.indexOf(needle)` returning `none` for `-1`. -/
def indexOfL (hay needle : List Char) : Option Nat := indexOfLGo needle hay 0

/-- Model of `extractRequest(content, triggerPhrase)` from `src/modes/tag.ts`. -/
def extractRequest (content triggerPhrase : String) : String :=
  let lower := jsToLower content.data
  match indexOfL lower (jsToLower triggerPhrase.data) with
  | none => content
  | some idx =>
      let afterTrigger := jsTrimList (content.data.drop (idx + triggerPhrase.data.length))
      if afterTrigger.isEmpty then content else String.mk afterTrigger

/-! ## Diff Filter (`src/utils/git.ts`, `filterDiffByPatterns`)

The blob is split with `diff.split(/(?=diff --git)/)`: a new chunk starts
at every occurrence of the literal `diff --git` except at position 0.
Chunks whose `trim()` is empty are skipped; chunks whose first line does
not match `/^diff --git a\/(.+?) b\/(.+)/` are kept verbatim; other chunks
are kept iff `shouldIncludeFile` accepts the destination (`b`-side) path. -/

/-- The literal the splitting lookahead searches for. -/
def diffHeaderLit : List Char := "diff --git".data

/-- Splitter for `split(/(?=diff --git)/)`; `cur` is the reversed current
chunk. -/
def splitDiffGo : List Char → List Char → List (List Char)
  | cur, [] => [cur.reverse]
  | cur, c :: cs =>
      if !cur.isEmpty && isPrefixL diffHeaderLit (c :: cs) then
        cur.reverse :: splitDiffGo [c] cs
      else
        splitDiffGo (c :: cur) cs

/-- Split a diff into chunks, each occurrence of `diff --git` (other than
at position 0) starting a new chunk. -/
def splitDiff (s : List Char) : List (List Char) := splitDiffGo [] s

/-- The regex tail `\ b\/(.+)` tried at one position: literal ` b/`
followed by at least one `.`-character; returns the greedy `(.+)` group. -/
def destTryB (l : List Char) : Option (List Char) :=
  if isPrefixL (" b/").data l then
    let rest := l.drop 3
    match rest with
    | [] => none
    | c :: _ => if isDotChar c then some (rest.takeWhile isDotChar) else none
  else none

/-- Lazy search for the end of the `(.+?)` group: consume one
`.`-character at a time, trying ` b/(.+)` after each. -/
def destSearch : List Char → Option (List Char)
  | [] => none
  | c :: cs =>
      if isDotChar c then
        match destTryB cs with
        | some d => some d
        | none => destSearch cs
      else none

/-- Destination path extracted by `chunk.match(/^diff --git a\/(.+?) b\/(.+)/)`
(`match[2]`), or `none` when the chunk is not a valid header chunk. -/
def extractDest (chunk : List Char) : Option (List Char) :=
  if isPrefixL ("diff --git a/").data chunk then
    destSearch (chunk.drop 13)
  else none

/-- The keep/drop loop over chunks (the `for` loop of the source: skip
whitespace-only chunks, keep header-less chunks, filter the rest by
destination path). -/
def filterChunks (includes excludes : Option (List String)) :
    List (List Char) → List (List Char)
  | [] => []
  | ch :: rest =>
      if ch.all isJsSpace then filterChunks includes excludes rest
      else match extractDest ch with
        | none => ch :: filterChunks includes excludes rest
        | some p =>
            if shouldIncludeFile (String.mk p) includes excludes then
              ch :: filterChunks includes excludes rest
            else filterChunks includes excludes rest

/-- Model of `filterDiffByPatterns(diff, include?, exclude?)` from `src/utils/git.ts`. -/
def filterDiffByPatterns (diff : String)
    (includes excludes : Option (List String)) : String :=
  if (includes.getD []).isEmpty && (excludes.getD []).isEmpty then diff
  else String.mk (filterChunks includes excludes (splitDiff diff.data)).flatten

/-! ## JSON values and `JSON.parse`

`parseClaudeJsonOutput` and the streaming parser call `JSON.parse`, so a
faithful model needs a JSON parser.  Numbers are represented as exact
rationals (every JSON numeral denotes a rational; the double rounding of
JS is immaterial to the properties at stake). -/

/-- Parsed JSON values. -/
inductive Json where
  | null
  | bool (b : Bool)
  | num (q : Rat)
  | str (s : String)
  | arr (elems : List Json)
  | obj (fields : List (String × Json))

/-- Property lookup `v[k]` on a parsed value: defined (only) on objects;
later duplicate keys override earlier ones, as in `JSON.parse`. -/
def objLookup (v : Json) (k : String) : Option Json :=
  match v with
  | Json.obj fields =>
      fields.foldl (fun acc kv => if kv.1 == k then some kv.2 else acc) none
  | _ => none

/-- JS truthiness of a parsed JSON value (`NaN` cannot arise from
`JSON.parse`). -/
def truthy : Json → Bool
  | Json.null => false
  | Json.bool b => b
  | Json.num q => !(q == 0)
  | Json.str s => !(s == "")
  | Json.arr _ => true
  | Json.obj _ => true

/-- Whitespace accepted between JSON tokens. -/
def isJsonWs (c : Char) : Bool :=
  (c == ' ') || (c == '\t') || (c == '\n') || (c == '\r')

def skipWs (cs : List Char) : List Char := cs.dropWhile isJsonWs

def isDigit (c : Char) : Bool := ('0' ≤ c) && (c ≤ '9')

def hexVal (c : Char) : Option Nat :=
  if ('0' ≤ c) && (c ≤ '9') then some (c.toNat - 48)
  else if ('a' ≤ c) && (c ≤ 'f') then some (c.toNat - 87)
  else if ('A' ≤ c) && (c ≤ 'F') then some (c.toNat - 55)
  else none

/-- Body of a JSON string after the opening quote: returns the decoded
characters and the input after the closing quote.  Unescaped control
characters and malformed escapes are rejected, as in `JSON.parse`. -/
def parseStringBody : List Char → Option (List Char × List Char)
  | [] => none
  | '"' :: rest => some ([], rest)
  | '\\' :: 'u' :: h1 :: h2 :: h3 :: h4 :: rest => do
      let d1 ← hexVal h1
      let d2 ← hexVal h2
      let d3 ← hexVal h3
      let d4 ← hexVal h4
      let (s, r) ← parseStringBody rest
      pure (Char.ofNat (((d1 * 16 + d2) * 16 + d3) * 16 + d4) :: s, r)
  | '\\' :: e :: rest => do
      let c ← match e with
        | '"' => some '"'
        | '\\' => some '\\'
        | '/' => some '/'
        | 'b' => some (Char.ofNat 8)
        | 'f' => some (Char.ofNat 12)
        | 'n' => some '\n'
        | 'r' => some '\r'
        | 't' => some '\t'
        | _ => none
      let (s, r) ← parseStringBody rest
      pure (c :: s, r)
  | c :: rest =>
      if c.toNat < 32 then none
      else do
        let (s, r) ← parseStringBody rest
        pure (c :: s, r)

/-- Numeric value of a digit run. -/
def digitsToNat (ds : List Char) : Nat :=
  ds.foldl (fun acc c => acc * 10 + (c.toNat - 48)) 0

/-- Exponent tail of a JSON number (after the `e`/`E`). -/
def parseExpTail (cs : List Char) : Option (Int × List Char) :=
  let (eneg, cs1) := match cs with
    | '+' :: rest => (false, rest)
    | '-' :: rest => (true, rest)
    | _ => (false, cs)
  let ds := cs1.takeWhile isDigit
  if ds.isEmpty then none
  else
    let v : Int := Int.ofNat (digitsToNat ds)
    some (if eneg then -v else v, cs1.drop ds.length)

/-- Parse a JSON number per the JSON grammar
(`-? int frac? exp?`, no leading zeros, no leading `+` or `.`). -/
def parseNumber (cs : List Char) : Option (Rat × List Char) :=
  let (neg, cs1) := match cs with
    | '-' :: rest => (true, rest)
    | _ => (false, cs)
  let intDigits := cs1.takeWhile isDigit
  let cs2 := cs1.drop intDigits.length
  match intDigits with
  | [] => none
  | d :: ds =>
    if d == '0' && !ds.isEmpty then none
    else
      let fr : Option (List Char × List Char) :=
        match cs2 with
        | '.' :: rest =>
            let fd := rest.takeWhile isDigit
            if fd.isEmpty then none else some (fd, rest.drop fd.length)
        | _ => some ([], cs2)
      match fr with
      | none => none
      | some (fracDigits, cs3) =>
        let ex : Option (Int × List Char) :=
          match cs3 with
          | 'e' :: rest => parseExpTail rest
          | 'E' :: rest => parseExpTail rest
          | _ => some (0, cs3)
        match ex with
        | none => none
        | some (expVal, cs4) =>
          let mag : Int := Int.ofNat (digitsToNat (intDigits ++ fracDigits))
          let mant : Int := if neg then -mag else mag
          let scale : Int := expVal - Int.ofNat fracDigits.length
          let q : Rat :=
            if 0 ≤ scale then mkRat (mant * Int.ofNat ((10 : Nat) ^ scale.toNat)) 1
            else mkRat mant ((10 : Nat) ^ (-scale).toNat)
          some (q, cs4)

/- Value parser with explicit fuel; every recursive call strictly
decreases the fuel, and the initial fuel passed by `jsonParse` dominates
the number of calls for any input. -/
mutual

def parseValue : Nat → List Char → Option (Json × List Char)
  | 0, _ => none
  | fuel + 1, cs0 =>
    match skipWs cs0 with
    | [] => none
    | '{' :: rest =>
        (match skipWs rest with
         | '}' :: r2 => some (Json.obj [], r2)
         | r1 => parseMembers fuel r1 [])
    | '[' :: rest =>
        (match skipWs rest with
         | ']' :: r2 => some (Json.arr [], r2)
         | r1 => parseElems fuel r1 [])
    | '"' :: rest =>
        (parseStringBody rest).map (fun p => (Json.str (String.mk p.1), p.2))
    | 't' :: rest =>
        if isPrefixL ("rue").data rest then some (Json.bool true, rest.drop 3) else none
    | 'f' :: rest =>
        if isPrefixL ("alse").data rest then some (Json.bool false, rest.drop 4) else none
    | 'n' :: rest =>
        if isPrefixL ("ull").data rest then some (Json.null, rest.drop 3) else none
    | cs => (parseNumber cs).map (fun p => (Json.num p.1, p.2))

/-- Members of an object, positioned at a key (after `{` or `,`). -/
def parseMembers : Nat → List Char → List (String × Json) →
    Option (Json × List Char)
  | 0, _, _ => none
  | fuel + 1, cs, acc =>
    match skipWs cs with
    | '"' :: rest =>
        match parseStringBody rest with
        | none => none
        | some (k, r1) =>
          match skipWs r1 with
          | ':' :: r2 =>
              (match parseValue fuel r2 with
               | none => none
               | some (v, r3) =>
                 let acc2 := acc ++ [(String.mk k, v)]
                 match skipWs r3 with
                 | ',' :: r4 => parseMembers fuel r4 acc2
                 | '}' :: r4 => some (Json.obj acc2, r4)
                 | _ => none)
          | _ => none
    | _ => none

/-- Elements of an array, positioned at a value (after `[` or `,`). -/
def parseElems : Nat → List Char → List Json → Option (Json × List Char)
  | 0, _, _ => none
  | fuel + 1, cs, acc =>
    match parseValue fuel cs with
    | none => none
    | some (v, r1) =>
      let acc2 := acc ++ [v]
      match skipWs r1 with
      | ',' :: r2 => parseElems fuel r2 acc2
      | ']' :: r2 => some (Json.arr acc2, r2)
      | _ => none

end

/-- Model of `JSON.parse`: a whole-input parse, `none` where JS throws. -/
def jsonParse (s : String) : Option Json :=
  match parseValue (3 * s.data.length + 8) s.data with
  | some (v, rest) => if (skipWs rest).isEmpty then some v else none
  | none => none

/-! ## Process Runner — single-JSON mode (`src/index.ts`)

`parseClaudeJsonOutput` wraps everything in `try { ... } catch`, so a
parse failure — or the property access throwing on a top-level `null` —
degrades to the raw trimmed text with no usage.  The `||` chains for the
token counts use JS truthiness (`0` falls through to the flat field). -/

/-- The `ClaudeUsage` interface. -/
structure ClaudeUsage where
  inputTokens : Rat
  outputTokens : Rat
  totalTokens : Rat
  costUsd : Option Rat
  deriving DecidableEq

/-- Exact rational addition by numerator/denominator arithmetic; equal to
`Rat` addition (`ratAdd_eq_add`) but, unlike the irreducible `+`, it
evaluates by kernel reduction on concrete inputs. -/
def ratAdd (a b : Rat) : Rat :=
  mkRat (a.num * Int.ofNat b.den + b.num * Int.ofNat a.den) (a.den * b.den)

/-- Numeric reading of a JSON value after a truthiness test has passed.
The wire shape carries plain numbers in the token and cost fields; for
non-number truthy values JS would propagate the value itself (string
concatenation etc.), which this model flattens to `0` — no such value is
produced by the assistant binary nor exercised by any property here. -/
def jsToNum : Json → Rat
  | Json.num q => q
  | _ => 0

/-- The chain `json.usage?.[k] || json[k] || 0` (JS `||` keeps the first
truthy operand). -/
def tokenField (usageField : Option Json) (j : Json) (k : String) : Rat :=
  match usageField.bind (fun u => objLookup u k) with
  | some v =>
      if truthy v then jsToNum v
      else match objLookup j k with
        | some w => if truthy w then jsToNum w else 0
        | none => 0
  | none =>
      match objLookup j k with
      | some w => if truthy w then jsToNum w else 0
      | none => 0

/-- Model of `parseClaudeJsonOutput(output)` from `src/index.ts`: extract result
text and usage from the single-JSON document, degrading to the raw
trimmed text when parsing (or property access on a top-level `null`)
throws. -/
def parseClaudeJsonOutput (output : String) : String × Option ClaudeUsage :=
  let t := jsTrim output
  match jsonParse t with
  | none => (t, none)
  | some Json.null => (t, none)
  | some j =>
      let text : String :=
        match objLookup j ("result") with
        | none => ""
        | some rv =>
            match rv with
            | Json.str s => s
            | _ =>
                match objLookup rv ("text") with
                | some tv =>
                    if truthy tv then
                      (match tv with | Json.str s2 => s2 | _ => "")
                    else ""
                | none => ""
      let usageField := objLookup j ("usage")
      let usage : Option ClaudeUsage :=
        if truthy (usageField.getD Json.null) || !(objLookup j ("cost_usd")).isNone then
          some
            { inputTokens := tokenField usageField j ("input_tokens")
              outputTokens := tokenField usageField j ("output_tokens")
              totalTokens :=
                ratAdd (tokenField usageField j ("input_tokens"))
                  (tokenField usageField j ("output_tokens"))
              costUsd := (objLookup j ("cost_usd")).map jsToNum }
        else none
      (text, usage)

/-- The `ClaudeResult` interface. -/
structure ClaudeResult where
  success : Bool
  output : String
  error : Option String
  usage : Option ClaudeUsage
  deriving DecidableEq

/-- Outcome of the spawned subprocess as observed by the `close` and
`error` handlers: an exit with a code and the two accumulated streams, or
a spawn failure with an error message. -/
inductive ProcOutcome where
  | exited (code : Int) (stdout stderr : String)
  | spawnError (msg : String)

/-- Model of `runClaude` from `src/index.ts` as a function of the subprocess
outcome (argument building, spawning and stream accumulation form the
process boundary; the two handlers decide the returned result). -/
def runClaude (outcome : ProcOutcome) : ClaudeResult :=
  match outcome with
  | ProcOutcome.exited code stdout stderr =>
      if code == 0 then
        let parsed := parseClaudeJsonOutput stdout
        { success := true, output := parsed.1, error := none, usage := parsed.2 }
      else
        { success := false
          output := jsTrim stdout
          error := some (if stderr == "" then "Exit code: " ++ toString code else stderr)
          usage := none }
  | ProcOutcome.spawnError msg =>
      { success := false, output := "", error := some msg, usage := none }

/-! ## Process Runner — streaming mode (`runClaudeStreaming`)

The `data` handler appends the chunk to a pending buffer, splits on
newlines, keeps the trailing (incomplete) segment as the new buffer and
processes every complete line: parse as JSON, accumulate the `text`
blocks of `assistant` events, and take a `result` event's payload as the
final text only when nothing has been accumulated yet.  Unparsable lines
are ignored. -/

/-- JS `s.split("\n")` on character lists (always non-empty; an input
without newlines yields the single segment `[s]`). -/
def splitNl : List Char → List (List Char)
  | [] => [[]]
  | c :: cs =>
      let r := splitNl cs
      if c == '\n' then [] :: r
      else match r with
        | [] => [[c]]
        | h :: t => (c :: h) :: t

/-- JS string coercion of a JSON value.  Exact for strings — the only
case the streaming wire shape produces; number formatting is
approximated (JS shortest-roundtrip float printing is out of scope and
unreachable for `{type, message.content[].text}` events). -/
def jsToStr : Json → String
  | Json.str s => s
  | Json.bool b => if b then "true" else "false"
  | Json.null => "null"
  | Json.num q => toString q.num ++ (if q.den == 1 then "" else "/" ++ toString q.den)
  | Json.arr _ => ""
  | Json.obj _ => "[object Object]"

/-- The `for (const block of event.message.content)` loop.  A `null`
block throws on `block.type`; the throw is caught by the line's
`try/catch`, so the loop aborts keeping the text appended so far. -/
def blocksLoop (acc : String) : List Json → String
  | [] => acc
  | b :: rest =>
      match b with
      | Json.null => acc
      | _ =>
        match objLookup b ("type") with
        | some (Json.str t) =>
            if t == "text" then
              match objLookup b ("text") with
              | some v =>
                  if truthy v then blocksLoop (acc ++ jsToStr v) rest
                  else blocksLoop acc rest
              | none => blocksLoop acc rest
            else blocksLoop acc rest
        | _ => blocksLoop acc rest

/-- Processing of one complete line by the streaming `data` handler:
empty lines are skipped, unparsable lines ignored, `assistant` events
accumulate their text blocks, and a truthy `result` payload becomes the
output only if the accumulator is still empty. -/
def processLine (acc : String) (line : String) : String :=
  if (jsTrimList line.data).isEmpty then acc
  else match jsonParse line with
    | none => acc
    | some Json.null => acc
    | some j =>
      match objLookup j ("type") with
      | some (Json.str t) =>
          if t == "assistant" then
            match (objLookup j ("message")).bind (fun m => objLookup m ("content")) with
            | some (Json.arr blocks) => blocksLoop acc blocks
            | some _ => acc
            | none => acc
          else if t == "result" then
            match objLookup j ("result") with
            | some v => if truthy v && (acc == "") then jsToStr v else acc
            | none => acc
          else acc
      | _ => acc

/-- State held across `data` events: the pending partial line and the
accumulated output. -/
structure StreamState where
  buffer : List Char
  finalOutput : String
  deriving DecidableEq

/-- One `data` event: append the chunk, split on newlines, keep the
trailing segment in the buffer (`lines.pop() || ""`) and process the
complete lines in order. -/
def processChunk (st : StreamState) (chunk : List Char) : StreamState :=
  let segs := splitNl (st.buffer ++ chunk)
  { buffer := segs.getLastD []
    finalOutput :=
      segs.dropLast.foldl (fun a l => processLine a (String.mk l)) st.finalOutput }

/-- Initial handler state. -/
def initState : StreamState := { buffer := [], finalOutput := "" }

/-- The whole stream of `data` events. -/
def runChunks (chunks : List (List Char)) : StreamState :=
  chunks.foldl processChunk initState

/-- Model of `runClaudeStreaming` from `src/index.ts` as a function of the chunk
sequence and the process exit: the `close` handler trims the accumulated
text and reports stderr on non-zero exit. -/
def runClaudeStreaming (chunks : List (List Char)) (code : Int) (stderr : String) :
    ClaudeResult :=
  let st := runChunks chunks
  { success := code == 0
    output := jsTrim st.finalOutput
    error := if code == 0 then none else some stderr
    usage := none }

/-! ## Mode Orchestrator (`src/modes/review.ts`, `src/modes/tag.ts`)

The mode bodies are embedded as pure functions of the configuration and
of an environment record holding the observable behaviour of the
external collaborators (host API, local git, the assistant subprocess).
Besides the returned `ReviewResult`/`TagResult`, the outcome records
whether the assistant was invoked and with which prompt, and which
comment posts were attempted — the facts the orchestrator claims are
about. -/

/-- JS `a || b` on strings (empty string is falsy). -/
def jsOrS (a b : String) : String := if a == "" then b else a

/-- The fields of `Config` the two mode bodies read.
`reviewIncludePatterns`/`reviewExcludePatterns` model
`config.projectConfig?.review?.include` / `...exclude`. -/
structure Config where
  prId : Option Int
  destinationBranch : String
  bitbucketToken : String
  triggerPhrase : String
  reviewIncludePatterns : Option (List String)
  reviewExcludePatterns : Option (List String)

/-- The fields of the `PullRequest` record read by review mode. -/
structure PullRequest where
  title : String
  sourceBranch : String
  destBranch : String

/-- Model of `MAX_DIFF_SIZE` from `src/shared/constants.ts`. -/
def MAX_DIFF_SIZE : Nat := 30000

/-- Model of `ReviewPromptParams` from `src/prompts/review.ts`. -/
structure ReviewPromptParams where
  title : String
  sourceBranch : String
  destBranch : String
  diff : String
  customPrompt : Option String := none
  projectName : Option String := none
  projectType : Option String := none

/-- Model of `buildReviewPrompt(params)` from `src/prompts/review.ts` (the
template literal, with the diff hard-truncated to `MAX_DIFF_SIZE`
characters). -/
def buildReviewPrompt (params : ReviewPromptParams) : String :=
  let pName := params.projectName.getD ""
  let pType := params.projectType.getD ""
  let projectContext :=
    if !(pName == "") || !(pType == "") then
      "\n**Project:** " ++ pName ++
        (if !(pType == "") then " (" ++ pType ++ ")" else "") ++ "\n"
    else ""
  let reviewInstructions :=
    match params.customPrompt with
    | some s =>
        if s == "" then "Check for: bugs, security issues, logic errors. Skip style nits."
        else s
    | none => "Check for: bugs, security issues, logic errors. Skip style nits."
  "Review this PR. Be concise - bullet points only.\n\n**" ++ params.title ++
    "** (" ++ params.sourceBranch ++ " → " ++ params.destBranch ++ ")" ++
    projectContext ++ "\n\n" ++ reviewInstructions ++
    "\n\nFormat: 🔴 Critical | 🟡 Important | 🟢 Minor\n- File:line - Issue - Fix" ++
    "\n\nIf code is good, just say \"LGTM\".\n\n```diff\n" ++
    String.mk (params.diff.data.take MAX_DIFF_SIZE) ++ "\n```"

/-- Model of `formatReviewComment(output)` from `src/prompts/review.ts`. -/
def formatReviewComment (output : String) : String :=
  "## Claude Code Review\n\n" ++ output ++ "\n\n---\n*Automated review by Claude*"

/-- The `ReviewResult` interface. -/
structure ReviewResult where
  success : Bool
  reviewPosted : Bool
  error : Option String
  deriving DecidableEq

/-- Observable behaviour of the collaborators of review mode.
`getChangedFiles` is also called by the source, but only its length is
logged, so it does not appear here. -/
structure ReviewEnv where
  pullRequest : Option PullRequest
  envPrTitle : String
  envBranch : String
  localDiff : String
  claudeResult : ClaudeResult
  postCommentOk : Bool

/-- Review-mode outcome: the returned result plus the observable calls. -/
structure ReviewOutcome where
  result : ReviewResult
  claudeInvoked : Bool
  promptSent : Option String
  postedComment : Option String
  deriving DecidableEq

/-- The parameters review mode passes to `buildReviewPrompt`: PR title
and branches resolved through the `||` fallback chains of the source
(fetched PR, then pipeline environment, then defaults), and the local
diff UNFILTERED. -/
def reviewParams (config : Config) (env : ReviewEnv) : ReviewPromptParams :=
  let pr : Option PullRequest :=
    if !(config.bitbucketToken == "") then env.pullRequest else none
  { title :=
      jsOrS (match pr with | some p => p.title | none => "")
        (jsOrS env.envPrTitle ("PR"))
    sourceBranch :=
      jsOrS (match pr with | some p => p.sourceBranch | none => "")
        (jsOrS env.envBranch "")
    destBranch :=
      jsOrS (match pr with | some p => p.destBranch | none => "")
        config.destinationBranch
    diff := env.localDiff }

/-- Model of `runReviewMode(config, client)` from `src/modes/review.ts`. -/
def runReviewMode (config : Config) (env : ReviewEnv) : ReviewOutcome :=
  match config.prId with
  | none =>
      { result := { success := false, reviewPosted := false, error := some ("No PR ID") }
        claudeInvoked := false, promptSent := none, postedComment := none }
  | some _ =>
    let diff := env.localDiff
    if diff == "" then
      { result := { success := true, reviewPosted := false, error := some ("No diff") }
        claudeInvoked := false, promptSent := none, postedComment := none }
    else
      let prompt := buildReviewPrompt (reviewParams config env)
      let result := env.claudeResult
      if !result.success then
        { result := { success := false, reviewPosted := false, error := result.error }
          claudeInvoked := true, promptSent := some prompt, postedComment := none }
      else if !(result.output == "") && !(config.bitbucketToken == "") then
        let comment := formatReviewComment result.output
        if env.postCommentOk then
          { result := { success := true, reviewPosted := true, error := none }
            claudeInvoked := true, promptSent := some prompt, postedComment := some comment }
        else
          { result := { success := true, reviewPosted := false,
                        error := some ("Failed to post comment") }
            claudeInvoked := true, promptSent := some prompt, postedComment := some comment }
      else
        { result := { success := true, reviewPosted := false, error := none }
          claudeInvoked := true, promptSent := some prompt, postedComment := none }

/-- The fields of a `PRComment` read by tag mode; `createdOn` is the
numeric timestamp of `created_on` (`new Date(...).getTime()`, with date
parsing abstracted). -/
structure PRComment where
  id : Int
  raw : String
  createdOn : Int
  deriving DecidableEq

/-- JS `hay.includes(needle)` on character lists. -/
def containsSub (hay needle : List Char) : Bool :=
  if isPrefixL needle hay then true
  else match hay with
    | [] => false
    | _ :: t => containsSub t needle

/-- Stable insertion of a comment into a list sorted by descending
timestamp (equal timestamps keep their original order). -/
def insertDesc (x : PRComment) : List PRComment → List PRComment
  | [] => [x]
  | y :: ys => if y.createdOn < x.createdOn then x :: y :: ys else y :: insertDesc x ys

/-- Stable sort by descending `createdOn` — the unique stable result of
`[...comments].sort((a, b) => timeB - timeA)`. -/
def sortByTimeDesc (l : List PRComment) : List PRComment :=
  l.foldl (fun acc x => insertDesc x acc) []

/-- Model of `findTriggerComment(comments, triggerPhrase)` from `src/modes/tag.ts`:
among the comments containing the trigger phrase (case-insensitive),
the one with the latest timestamp. -/
def findTriggerComment (comments : List PRComment) (triggerPhrase : String) :
    Option PRComment :=
  let sorted := sortByTimeDesc comments
  let triggered := sorted.filter
    (fun c => containsSub (jsToLower c.raw.data) (jsToLower triggerPhrase.data))
  triggered.head?

/-- The `TagResult` interface. -/
structure TagResult where
  success : Bool
  responded : Bool
  commentId : Option Int
  error : Option String
  deriving DecidableEq

/-- Observable behaviour of the collaborators of tag mode.
`replyResult` is the id of the reply created by `client.replyToComment`
on the success path (`none` models a `null` return, i.e. the post
failed). -/
structure TagEnv where
  comments : List PRComment
  claudeResult : ClaudeResult
  replyResult : Option Int

/-- Tag-mode outcome: besides the returned result, the reply posts that
were attempted, as `(target comment id, body)`. -/
structure TagOutcome where
  result : TagResult
  claudeInvoked : Bool
  replyPosted : Option (Int × String)
  errorReplyPosted : Option (Int × String)
  deriving DecidableEq

/-- Model of `runTagMode(config, client)` from `src/modes/tag.ts`. -/
def runTagMode (config : Config) (env : TagEnv) : TagOutcome :=
  match config.prId with
  | none =>
      { result := { success := false, responded := false, commentId := none,
                    error := some ("No PR ID") }
        claudeInvoked := false, replyPosted := none, errorReplyPosted := none }
  | some _ =>
    if env.comments.isEmpty then
      { result := { success := true, responded := false, commentId := none, error := none }
        claudeInvoked := false, replyPosted := none, errorReplyPosted := none }
    else
      match findTriggerComment env.comments config.triggerPhrase with
      | none =>
          { result := { success := true, responded := false, commentId := none, error := none }
            claudeInvoked := false, replyPosted := none, errorReplyPosted := none }
      | some tc =>
        let userRequest := extractRequest tc.raw config.triggerPhrase
        if userRequest == "" then
          { result := { success := true, responded := false, commentId := none, error := none }
            claudeInvoked := false, replyPosted := none, errorReplyPosted := none }
        else
          let result := env.claudeResult
          if !result.success then
            let errReply :=
              if !(config.bitbucketToken == "") then
                some (tc.id, "Sorry, I encountered an error: " ++ result.error.getD ("undefined"))
              else none
            { result := { success := false, responded := false, commentId := none,
                          error := result.error }
              claudeInvoked := true, replyPosted := none, errorReplyPosted := errReply }
          else if !(result.output == "") && !(config.bitbucketToken == "") then
            match env.replyResult with
            | some rid =>
                { result := { success := true, responded := true, commentId := some rid,
                              error := none }
                  claudeInvoked := true, replyPosted := some (tc.id, result.output)
                  errorReplyPosted := none }
            | none =>
                { result := { success := true, responded := false, commentId := none,
                              error := none }
                  claudeInvoked := true, replyPosted := some (tc.id, result.output)
                  errorReplyPosted := none }
          else
            { result := { success := true, responded := false, commentId := none, error := none }
              claudeInvoked := true, replyPosted := none, errorReplyPosted := none }

/-! ## Denotational glob semantics

`GlobSem` is the meaning of the compiled regex, written denotationally:
a token list matches a string iff the string decomposes into pieces, one
per token.  `SpecGlobSem` is the same relation written from the
specification text, whose words for `**` are "any run of characters
including separators" — with no carve-out for line terminators. -/

/-- Denotational semantics of the compiled pattern (the JS regex):
`*` consumes a run of non-separator characters, `**` a run of
`.`-characters (anything but a line terminator), `?` one non-separator
character, a literal consumes itself. -/
inductive GlobSem : List Tok → List Char → Prop where
  | nil : GlobSem [] []
  | lit {c : Char} {ts : List Tok} {s : List Char} :
      GlobSem ts s → GlobSem (Tok.lit c :: ts) (c :: s)
  | qmark {x : Char} {ts : List Tok} {s : List Char} :
      x ≠ '/' → GlobSem ts s → GlobSem (Tok.qmark :: ts) (x :: s)
  | star {run : List Char} {ts : List Tok} {s : List Char} :
      (∀ c ∈ run, c ≠ '/') → GlobSem ts s → GlobSem (Tok.star :: ts) (run ++ s)
  | globstar {run : List Char} {ts : List Tok} {s : List Char} :
      (∀ c ∈ run, isDotChar c = true) → GlobSem ts s →
      GlobSem (Tok.globstar :: ts) (run ++ s)

/-- Modelled from the spec, for comparison with `matchesPattern`: the
pattern language as the specification words it, where `**` matches any
run of characters whatsoever ("any run of characters including
separators"). -/
inductive SpecGlobSem : List Tok → List Char → Prop where
  | nil : SpecGlobSem [] []
  | lit {c : Char} {ts : List Tok} {s : List Char} :
      SpecGlobSem ts s → SpecGlobSem (Tok.lit c :: ts) (c :: s)
  | qmark {x : Char} {ts : List Tok} {s : List Char} :
      x ≠ '/' → SpecGlobSem ts s → SpecGlobSem (Tok.qmark :: ts) (x :: s)
  | star {run : List Char} {ts : List Tok} {s : List Char} :
      (∀ c ∈ run, c ≠ '/') → SpecGlobSem ts s → SpecGlobSem (Tok.star :: ts) (run ++ s)
  | globstar {run : List Char} {ts : List Tok} {s : List Char} :
      SpecGlobSem ts s → SpecGlobSem (Tok.globstar :: ts) (run ++ s)

/-! ## Spec-side diff filter -/

/-- The keep-predicate of the Diff Filter as the specification words it:
a chunk with no extractable destination is kept verbatim, any other
chunk is kept iff its destination passes `shouldIncludeFile`. -/
def specKeepChunk (includes excludes : Option (List String)) (ch : List Char) : Bool :=
  match extractDest ch with
  | none => true
  | some p => shouldIncludeFile (String.mk p) includes excludes

/-- Modelled from the spec, for comparison with `filterDiffByPatterns`:
split into chunks, keep by `specKeepChunk`, reassemble in order — with
no special treatment of whitespace-only chunks. -/
def specFilterDiff (diff : String) (includes excludes : Option (List String)) : String :=
  String.mk ((splitDiff diff.data).filter (specKeepChunk includes excludes)).flatten

/-! ## Concrete fixtures used by counterexamples and witnesses -/

/-- A diff whose only file chunk is excluded by the glob `**`. -/
def diffEx : String := "diff --git a/x.ts b/x.ts\n+1\n"

/-- A diff with a whitespace-only leading chunk. -/
def diffWs : String := "\ndiff --git a/x.ts b/x.ts\n+1\n"

/-- The single-JSON wire example from the spec. -/
def exJson : String :=
  "\x7b\"result\":\"LGTM\",\"usage\":\x7b\"input_tokens\":10,\"output_tokens\":5\x7d\x7d"

/-- Review-mode configuration with a PR id, no host token, and a project
exclude list that filters out every file. -/
def cfgReview : Config :=
  { prId := some 1, destinationBranch := "main", bitbucketToken := ""
    triggerPhrase := "@claude"
    reviewIncludePatterns := none, reviewExcludePatterns := some ["**"] }

/-- Review-mode environment: a non-empty local diff every file of which
the project excludes, and a successful assistant invocation. -/
def envReview : ReviewEnv :=
  { pullRequest := none, envPrTitle := "", envBranch := ""
    localDiff := diffEx
    claudeResult := { success := true, output := "LGTM", error := none, usage := none }
    postCommentOk := true }

/-- Tag-mode configuration with a PR id and a host token. -/
def cfgTag : Config :=
  { prId := some 2, destinationBranch := "main", bitbucketToken := "tok"
    triggerPhrase := "@claude"
    reviewIncludePatterns := none, reviewExcludePatterns := none }

/-- The trigger comment used by the tag-mode fixtures. -/
def commentTag : PRComment := { id := 7, raw := "@claude fix this", createdOn := 100 }

/-- Tag-mode environment where the invocation succeeds with EMPTY output
and the host reply would succeed. -/
def envTagEmpty : TagEnv :=
  { comments := [commentTag]
    claudeResult := { success := true, output := "", error := none, usage := none }
    replyResult := some 99 }

/-- Tag-mode environment where the invocation succeeds with non-empty
output and the host reply succeeds with id 99. -/
def envTagOk : TagEnv :=
  { comments := [commentTag]
    claudeResult := { success := true, output := "done", error := none, usage := none }
    replyResult := some 99 }

/-! ## Theorems -/

/-- The helper addition agrees with rational addition. -/
theorem ratAdd_eq_add (a b : Rat) : ratAdd a b = a + b := by
  rw [Rat.add_def, Rat.normalize_eq_mkRat]
  rfl

/-- Claim C3: for every path and pair of pattern lists, `shouldIncludeFile`
returns false whenever the path matches some exclude pattern (even if it
also matches an include pattern); otherwise, with a non-empty include
list the result is true iff the path matches at least one include
pattern; otherwise the result is true.  The equivalence renders exactly
that decision order; the final conjunct is the spec example in which the
exclude overrides a matching include. -/
theorem C3_theorem :
    (∀ (path : String) (incs excs : Option (List String)),
      shouldIncludeFile path incs excs = true ↔
        ((∀ p ∈ excs.getD [], matchesPattern path p = false) ∧
         ((incs.getD []).isEmpty = false →
            ∃ p ∈ incs.getD [], matchesPattern path p = true))) ∧
    shouldIncludeFile ("src/generated/x.ts")
      (some ["src/**"]) (some ["src/generated/**"]) = false := by
  constructor
  · intro path incs excs
    simp only [shouldIncludeFile]
    by_cases hA : (excs.getD []).any (fun pattern => matchesPattern path pattern) = true
    · rw [if_pos hA]
      simp only [List.any_eq_true] at hA
      obtain ⟨p, hp, hm⟩ := hA
      constructor
      · intro h
        exact absurd h (by simp)
      · rintro ⟨hall, -⟩
        exact absurd (hall p hp) (by simp [hm])
    · rw [if_neg hA]
      have hexc : ∀ p ∈ excs.getD [], matchesPattern path p = false := by
        intro p hp
        by_contra hne
        exact hA (List.any_eq_true.mpr ⟨p, hp, by simpa using hne⟩)
      by_cases hB : ((incs.getD []).isEmpty : Bool) = true
      · simp only [hB, Bool.not_true, if_neg, Bool.false_eq_true, if_false]
        constructor
        · intro _
          exact ⟨hexc, by simp [hB]⟩
        · intro _
          trivial
      · have hB' : ((incs.getD []).isEmpty : Bool) = false := by
          simpa using hB
        simp only [hB', Bool.not_false, if_pos, if_true]
        constructor
        · intro h
          refine ⟨hexc, fun _ => ?_⟩
          simpa [List.any_eq_true] using h
        · rintro ⟨-, hinc⟩
          obtain ⟨p, hp, hm⟩ := hinc trivial
          exact List.any_eq_true.mpr ⟨p, hp, by simp [hm]⟩
  · decide

/-- Claim C5: merging a default tool policy with an absent override
returns the default unchanged; with a present override each field is
resolved independently — the override's list when that list is
non-empty, the default's list otherwise.  The final conjunct is the spec
example replacing only the allow-list of the full-access policy. -/
theorem C5_theorem :
    (∀ d : ToolConfigSet, mergeToolConfig d none = d) ∧
    (∀ (d : ToolConfigSet) (o : ToolConfig),
      (mergeToolConfig d (some o)).allowedTools =
        (if (o.allowed.getD []).isEmpty then d.allowedTools else o.allowed.getD []) ∧
      (mergeToolConfig d (some o)).blockedTools =
        (if (o.blocked.getD []).isEmpty then d.blockedTools else o.blocked.getD [])) ∧
    mergeToolConfig TOOL_CONFIGS.fullAccess
        (some { allowed := some ["Read"], blocked := none }) =
      { allowedTools := ["Read"], blockedTools := TOOL_CONFIGS.fullAccess.blockedTools } := by
  refine ⟨fun d => rfl, fun d o => ⟨?_, ?_⟩, by decide⟩
  · simp only [mergeToolConfig]
    cases h : ((o.allowed.getD []).isEmpty : Bool) <;> simp [h]
  · simp only [mergeToolConfig]
    cases h : ((o.blocked.getD []).isEmpty : Bool) <;> simp [h]

/-- Claim C2: the classifier tests the actionable patterns before the
informational ones, so any string matching (case-insensitively) at least
one actionable pattern is classified Actionable even if it also matches
an informational pattern, and a string matching neither set defaults to
Informational.  The final conjunct exhibits a string matching patterns
of both sets that is classified Actionable. -/
theorem C2_theorem :
    (∀ s : String, (ACTIONABLE_PATTERNS.any fun p => p (jsToLower s.data)) = true →
        classifyRequest s = true) ∧
    (∀ s : String, (ACTIONABLE_PATTERNS.any fun p => p (jsToLower s.data)) = false →
        (INFORMATIONAL_PATTERNS.any fun p => p (jsToLower s.data)) = false →
        classifyRequest s = false) ∧
    ((ACTIONABLE_PATTERNS.any fun p => p (jsToLower ("fix this?").data)) = true ∧
     (INFORMATIONAL_PATTERNS.any fun p => p (jsToLower ("fix this?").data)) = true ∧
     classifyRequest ("fix this?") = true) := by
  refine ⟨?_, ?_, by decide⟩
  · intro s h
    simp only [classifyRequest, h, if_true]
  · intro s h1 h2
    simp only [classifyRequest, h1, h2, Bool.false_eq_true, if_false]

/-- Witness for C2 at concrete inputs: a string matching an actionable
pattern is Actionable, one matching neither set is Informational. -/
theorem C2_witness :
    classifyRequest ("please fix") = true ∧ classifyRequest ("hello") = false :=
  ⟨C2_theorem.1 ("please fix") (by decide),
   C2_theorem.2.1 ("hello") (by decide) (by decide)⟩

/-- Claim C8: exit code 0 yields `success:true` with the parsed text and
usage (possibly empty); a non-zero exit yields `success:false` with the
error stream verbatim as the error (or `"Exit code: N"` when the error
stream is empty) while the trimmed captured stdout is still returned as
output; a spawn failure yields `success:false` with the spawn error's
message. -/
theorem C8_theorem :
    ∀ (stdout stderr msg : String) (code : Int),
      (runClaude (ProcOutcome.exited 0 stdout stderr) =
        { success := true, output := (parseClaudeJsonOutput stdout).1,
          error := none, usage := (parseClaudeJsonOutput stdout).2 }) ∧
      (code ≠ 0 →
        runClaude (ProcOutcome.exited code stdout stderr) =
          { success := false, output := jsTrim stdout,
            error := some (if stderr == "" then "Exit code: " ++ toString code else stderr),
            usage := none }) ∧
      (runClaude (ProcOutcome.spawnError msg) =
        { success := false, output := "", error := some msg, usage := none }) := by
  intro stdout stderr msg code
  refine ⟨rfl, ?_, rfl⟩
  intro hc
  have hb : (code == 0) = false := by simpa using hc
  simp only [runClaude, hb, Bool.false_eq_true, if_false]

/-- Witness for C8: a non-zero exit with a populated error stream fails
with that stream verbatim and the trimmed stdout as output. -/
theorem C8_witness :
    runClaude (ProcOutcome.exited 2 (" out ") ("boom")) =
      { success := false, output := "out", error := some ("boom"), usage := none } := by
  have h := (C8_theorem (" out ") ("boom") ("m") 2).2.1 (by decide)
  simpa using h

/-! ### Equivalence of the glob matcher with its denotational semantics -/

/-- Inversion for `GlobSem` on an empty pattern. -/
theorem glob_nil_inv {s : List Char} (h : GlobSem [] s) : s = [] := by
  cases h
  rfl

/-- Inversion for `GlobSem` on a literal token. -/
theorem glob_lit_inv {c : Char} {ts : List Tok} {s : List Char}
    (h : GlobSem (Tok.lit c :: ts) s) :
    ∃ s', s = c :: s' ∧ GlobSem ts s' := by
  cases h with
  | lit h' => exact ⟨_, rfl, h'⟩

/-- Inversion for `GlobSem` on a `?` token. -/
theorem glob_qmark_inv {ts : List Tok} {s : List Char}
    (h : GlobSem (Tok.qmark :: ts) s) :
    ∃ x s', s = x :: s' ∧ x ≠ '/' ∧ GlobSem ts s' := by
  cases h with
  | qmark hx h' => exact ⟨_, _, rfl, hx, h'⟩

/-- Inversion for `GlobSem` on a `*` token. -/
theorem glob_star_inv {ts : List Tok} {s : List Char}
    (h : GlobSem (Tok.star :: ts) s) :
    ∃ run s', s = run ++ s' ∧ (∀ c ∈ run, c ≠ '/') ∧ GlobSem ts s' := by
  cases h with
  | star hrun h' => exact ⟨_, _, rfl, hrun, h'⟩

/-- Inversion for `GlobSem` on a `**` token. -/
theorem glob_globstar_inv {ts : List Tok} {s : List Char}
    (h : GlobSem (Tok.globstar :: ts) s) :
    ∃ run s', s = run ++ s' ∧ (∀ c ∈ run, isDotChar c = true) ∧ GlobSem ts s' := by
  cases h with
  | globstar hrun h' => exact ⟨_, _, rfl, hrun, h'⟩

/-- Soundness of the executable matcher: a successful match (with any
fuel) is a derivation of the denotational semantics. -/
theorem glob_sound : ∀ (f : Nat) (ts : List Tok) (s : List Char),
    goMatch f ts s = true → GlobSem ts s := by
  intro f
  induction f with
  | zero => intro ts s h; simp [goMatch] at h
  | succ f ih =>
    intro ts s h
    match ts, s with
    | [], [] => exact GlobSem.nil
    | [], _ :: _ => simp [goMatch] at h
    | Tok.lit c :: ts', [] => simp [goMatch] at h
    | Tok.lit c :: ts', x :: xs =>
      simp only [goMatch, Bool.and_eq_true, beq_iff_eq] at h
      obtain ⟨rfl, h2⟩ := h
      exact GlobSem.lit (ih ts' xs h2)
    | Tok.qmark :: ts', [] => simp [goMatch] at h
    | Tok.qmark :: ts', x :: xs =>
      simp only [goMatch, Bool.and_eq_true, Bool.not_eq_eq_eq_not, Bool.not_true,
        beq_eq_false_iff_ne] at h
      exact GlobSem.qmark h.1 (ih ts' xs h.2)
    | Tok.star :: ts', [] =>
      simp only [goMatch] at h
      exact @GlobSem.star [] ts' [] (by simp) (ih ts' [] h)
    | Tok.star :: ts', x :: xs =>
      simp only [goMatch, Bool.or_eq_true, Bool.and_eq_true, Bool.not_eq_eq_eq_not,
        Bool.not_true, beq_eq_false_iff_ne] at h
      rcases h with h | ⟨hx, h⟩
      · exact @GlobSem.star [] ts' (x :: xs) (by simp) (ih ts' (x :: xs) h)
      · obtain ⟨run, s', rfl, hrun, hsem⟩ := glob_star_inv (ih (Tok.star :: ts') xs h)
        exact @GlobSem.star (x :: run) ts' s'
          (by
            intro c hc
            rcases List.mem_cons.mp hc with rfl | hc
            · exact hx
            · exact hrun c hc) hsem
    | Tok.globstar :: ts', [] =>
      simp only [goMatch] at h
      exact @GlobSem.globstar [] ts' [] (by simp) (ih ts' [] h)
    | Tok.globstar :: ts', x :: xs =>
      simp only [goMatch, Bool.or_eq_true, Bool.and_eq_true] at h
      rcases h with h | ⟨hx, h⟩
      · exact @GlobSem.globstar [] ts' (x :: xs) (by simp) (ih ts' (x :: xs) h)
      · obtain ⟨run, s', rfl, hrun, hsem⟩ := glob_globstar_inv (ih (Tok.globstar :: ts') xs h)
        exact @GlobSem.globstar (x :: run) ts' s'
          (by
            intro c hc
            rcases List.mem_cons.mp hc with rfl | hc
            · exact hx
            · exact hrun c hc) hsem

/-- Completeness of the executable matcher: every derivation is found,
given fuel exceeding the combined length of pattern and string. -/
theorem glob_complete {ts : List Tok} {s : List Char} (h : GlobSem ts s) :
    ∀ f : Nat, ts.length + s.length < f → goMatch f ts s = true := by
  induction h with
  | nil =>
    intro f hf
    cases f with
    | zero => omega
    | succ f' => simp [goMatch]
  | lit h ih =>
    intro f hf
    cases f with
    | zero => omega
    | succ f' =>
      simp only [goMatch, Bool.and_eq_true, beq_iff_eq]
      exact ⟨by simp, ih f' (by simp at hf ⊢; omega)⟩
  | qmark hx h ih =>
    intro f hf
    cases f with
    | zero => omega
    | succ f' =>
      simp only [goMatch, Bool.and_eq_true, Bool.not_eq_eq_eq_not, Bool.not_true,
        beq_eq_false_iff_ne]
      exact ⟨hx, ih f' (by simp at hf ⊢; omega)⟩
  | star hrun h ih =>
    rename_i run ts' s'
    clear h
    revert hrun
    induction run with
    | nil =>
      intro hrun f hf
      cases f with
      | zero => omega
      | succ f' =>
        have hb : ts'.length + s'.length < f' := by simp at hf; omega
        cases s' with
        | nil => simpa [goMatch] using ih f' hb
        | cons x xs =>
          simp only [List.nil_append, goMatch, Bool.or_eq_true]
          exact Or.inl (ih f' hb)
    | cons c run' ihr =>
      intro hrun f hf
      cases f with
      | zero => omega
      | succ f' =>
        simp only [List.cons_append, goMatch, Bool.or_eq_true, Bool.and_eq_true,
          Bool.not_eq_eq_eq_not, Bool.not_true, beq_eq_false_iff_ne]
        refine Or.inr ⟨hrun c (by simp), ?_⟩
        exact ihr (fun c' hc' => hrun c' (by simp [hc'])) f' (by simp at hf ⊢; omega)
  | globstar hrun h ih =>
    rename_i run ts' s'
    clear h
    revert hrun
    induction run with
    | nil =>
      intro hrun f hf
      cases f with
      | zero => omega
      | succ f' =>
        have hb : ts'.length + s'.length < f' := by simp at hf; omega
        cases s' with
        | nil => simpa [goMatch] using ih f' hb
        | cons x xs =>
          simp only [List.nil_append, goMatch, Bool.or_eq_true]
          exact Or.inl (ih f' hb)
    | cons c run' ihr =>
      intro hrun f hf
      cases f with
      | zero => omega
      | succ f' =>
        simp only [List.cons_append, goMatch, Bool.or_eq_true, Bool.and_eq_true]
        refine Or.inr ⟨hrun c (by simp), ?_⟩
        exact ihr (fun c' hc' => hrun c' (by simp [hc'])) f' (by simp at hf ⊢; omega)

/-- The anchored matcher decides the denotational semantics. -/
theorem tokMatch_iff {ts : List Tok} {s : List Char} :
    tokMatch ts s = true ↔ GlobSem ts s :=
  ⟨glob_sound _ ts s, fun h => glob_complete h _ (by omega)⟩

/-- Claim C4 (amended): the glob matcher performs an anchored
whole-string match after normalizing separators, where `*` matches any
run of non-separator characters, `?` exactly one non-separator
character, other characters literally — and `**` matches any run of
characters including separators but excluding line terminators (the
compiled JS regex renders `**` as `.`, which never matches `\n`, `\r`,
U+2028, U+2029); the three spec examples hold. -/
theorem C4_theorem :
    (∀ (filePath pattern : String),
      matchesPattern filePath pattern = true ↔
        GlobSem (tokenize (normSlash pattern.data)) (normSlash filePath.data)) ∧
    matchesPattern ("src/file.ts") ("**/*.ts") = true ∧
    matchesPattern ("src/file.js") ("**/*.ts") = false ∧
    matchesPattern ("src/file.ts") ("*.ts") = false :=
  ⟨fun _ _ => tokMatch_iff, by decide, by decide, by decide⟩

/-- Counterexample to C4 as stated: under the spec's wording `**`
matches ANY run of characters, so `"a\nb"` should match the pattern
`"**"`; the code's matcher rejects it, because the compiled `.` does not
match the newline. -/
theorem C4_counterexample :
    SpecGlobSem (tokenize (normSlash ("**").data)) (normSlash ("a\nb").data) ∧
    matchesPattern ("a\nb") ("**") = false := by
  constructor
  · show SpecGlobSem [Tok.globstar] (['a', '\n', 'b'])
    have h := @SpecGlobSem.globstar (['a', '\n', 'b']) [] [] SpecGlobSem.nil
    simpa using h
  · decide

/-! ### The diff filter as a chunk-level filter -/

/-- The accumulation loop of `filterDiffByPatterns` is the list filter by
the keep-predicate that additionally drops whitespace-only chunks. -/
theorem filterChunks_eq_filter (incs excs : Option (List String)) :
    ∀ l : List (List Char),
      filterChunks incs excs l =
        l.filter (fun ch => !(ch.all isJsSpace) && specKeepChunk incs excs ch) := by
  intro l
  induction l with
  | nil => rfl
  | cons ch rest ih =>
    cases h1 : ch.all isJsSpace with
    | true => simp [filterChunks, h1, ih, specKeepChunk]
    | false =>
      cases h2 : extractDest ch with
      | none => simp [filterChunks, h1, h2, ih, specKeepChunk]
      | some p =>
        cases h3 : shouldIncludeFile (String.mk p) incs excs with
        | true => simp [filterChunks, h1, h2, h3, ih, specKeepChunk]
        | false => simp [filterChunks, h1, h2, h3, ih, specKeepChunk]

/-- Claim C6 (amended): for every diff and non-empty combination of
include/exclude lists, the filter splits the text into chunks at each
`diff --git` occurrence, DROPS chunks consisting entirely of whitespace,
keeps every other chunk without an extractable destination path
verbatim, keeps the remaining chunks iff `shouldIncludeFile` accepts
their `b`-side path, and reassembles the kept chunks in order. -/
theorem C6_theorem :
    ∀ (diff : String) (incs excs : Option (List String)),
      ¬((incs.getD []).isEmpty = true ∧ (excs.getD []).isEmpty = true) →
      filterDiffByPatterns diff incs excs =
        String.mk ((splitDiff diff.data).filter
          (fun ch => !(ch.all isJsSpace) && specKeepChunk incs excs ch)).flatten := by
  intro diff incs excs hne
  have hcond : ((incs.getD []).isEmpty && (excs.getD []).isEmpty) = false := by
    cases hi : ((incs.getD []).isEmpty : Bool) with
    | false => simp [hi]
    | true =>
      cases he : ((excs.getD []).isEmpty : Bool) with
      | false => simp [he]
      | true => exact absurd ⟨hi, he⟩ hne
  simp only [filterDiffByPatterns, hcond, Bool.false_eq_true, if_false,
    filterChunks_eq_filter]

/-- Counterexample to C6 as stated: on a diff with a whitespace-only
leading chunk, the spec-worded filter keeps that chunk verbatim (no
destination path can be extracted from it) but the code drops it. -/
theorem C6_counterexample :
    specFilterDiff diffWs (some ["**"]) none = diffWs ∧
    filterDiffByPatterns diffWs (some ["**"]) none = diffEx ∧
    filterDiffByPatterns diffWs (some ["**"]) none ≠
      specFilterDiff diffWs (some ["**"]) none := by
  refine ⟨by decide, by decide, ?_⟩
  decide

/-- Witness for C6 at a concrete diff and pattern pair. -/
theorem C6_witness :
    filterDiffByPatterns diffWs (some ["**"]) none =
      String.mk ((splitDiff diffWs.data).filter
        (fun ch => !(ch.all isJsSpace) && specKeepChunk (some ["**"]) none ch)).flatten :=
  C6_theorem diffWs (some ["**"]) none (by decide)

/-- Claim C7: the single-JSON parser extracts the output text from the
`result` field (a string, or an object's non-empty `text` string field),
computes `totalTokens` as `inputTokens + outputTokens`, degrades to the
raw trimmed text with no usage whenever the captured output is not
parseable, and parses the spec's wire example to output `"LGTM"` with
`totalTokens` 15. -/
theorem C7_theorem :
    (∀ s : String, jsonParse (jsTrim s) = none →
        parseClaudeJsonOutput s = (jsTrim s, none)) ∧
    (∀ (s : String) (u : ClaudeUsage), (parseClaudeJsonOutput s).2 = some u →
        u.totalTokens = u.inputTokens + u.outputTokens) ∧
    (∀ (s : String) (j : Json) (t : String), jsonParse (jsTrim s) = some j →
        j ≠ Json.null → objLookup j ("result") = some (Json.str t) →
        (parseClaudeJsonOutput s).1 = t) ∧
    (∀ (s : String) (j r : Json) (t : String), jsonParse (jsTrim s) = some j →
        j ≠ Json.null → objLookup j ("result") = some r →
        (∀ t', r ≠ Json.str t') → objLookup r ("text") = some (Json.str t) →
        t ≠ "" → (parseClaudeJsonOutput s).1 = t) ∧
    parseClaudeJsonOutput exJson =
      ("LGTM", some { inputTokens := 10, outputTokens := 5, totalTokens := 15,
                      costUsd := none }) := by
  refine ⟨?_, ?_, ?_, ?_, by decide⟩
  · intro s h
    simp only [parseClaudeJsonOutput, h]
  · intro s u h
    simp only [parseClaudeJsonOutput] at h
    cases hp : jsonParse (jsTrim s) with
    | none => rw [hp] at h; simp at h
    | some j =>
      rw [hp] at h
      cases j <;> simp only at h
      case null => exact absurd h (by simp)
      all_goals
        split at h
        case isTrue =>
          obtain rfl : _ = u := Option.some.inj h
          simpa using ratAdd_eq_add _ _
        case isFalse => exact absurd h (by simp)
  · intro s j t hp hnull hres
    simp only [parseClaudeJsonOutput, hp]
    cases j
    case null => exact absurd rfl hnull
    all_goals rw [hres]
  · intro s j r t hp hnull hres hstr htext ht
    simp only [parseClaudeJsonOutput, hp]
    have htr : truthy (Json.str t) = true := by
      simp [truthy]
      intro h
      exact absurd h ht
    cases j
    case null => exact absurd rfl hnull
    all_goals
      rw [hres]
      cases r
      case str => exact absurd rfl (hstr _)
      all_goals simp [htext, htr]

/-- Witness for C7: an unparsable capture degrades to the raw trimmed
text with no usage; the wire example's text extracts to `"LGTM"`; its
token total is the sum of its token counts. -/
theorem C7_witness :
    parseClaudeJsonOutput ("zzz") = (jsTrim ("zzz"), none) ∧
    (parseClaudeJsonOutput exJson).1 = "LGTM" ∧
    (15 : Rat) = 10 + 5 :=
  ⟨C7_theorem.1 ("zzz") rfl,
   C7_theorem.2.2.1 exJson
     (Json.obj [("result", Json.str ("LGTM")),
       ("usage", Json.obj [("input_tokens", Json.num 10), ("output_tokens", Json.num 5)])])
     ("LGTM") rfl (fun h => Json.noConfusion h) rfl,
   C7_theorem.2.1 exJson
     { inputTokens := 10, outputTokens := 5, totalTokens := 15, costUsd := none }
     (by decide)⟩

/-! ### Chunk-boundary invariance of the streaming parser -/

/-- Lemma: `splitNl` never returns the empty list. -/
theorem splitNl_ne_nil (cs : List Char) : splitNl cs ≠ [] := by
  cases cs with
  | nil => simp [splitNl]
  | cons c cs' =>
    simp only [splitNl]
    split
    · simp
    · cases h : splitNl cs' <;> simp

/-- Lemma: `getLastD` over an append with a non-empty right part ignores the
left part. -/
theorem getLastD_append_cons {α : Type} (l : List α) (y : α) (t : List α) (d : α) :
    (l ++ (y :: t)).getLastD d = (y :: t).getLastD d := by
  rw [List.getLastD_eq_getLast?, List.getLastD_eq_getLast?, List.getLast?_append,
    List.getLast?_eq_getLast (y :: t) (by simp)]
  rfl

/-- The last segment of `splitNl` contains no newline. -/
theorem splitNl_last_no_nl : ∀ cs : List Char, ∀ c ∈ (splitNl cs).getLastD [], c ≠ '\n' := by
  intro cs
  induction cs with
  | nil => simp [splitNl]
  | cons c cs' ih =>
    obtain ⟨sh, stl, hs⟩ : ∃ sh stl, splitNl cs' = sh :: stl := by
      cases hu : splitNl cs' with
      | nil => exact absurd hu (splitNl_ne_nil cs')
      | cons a b => exact ⟨a, b, rfl⟩
    rw [hs] at ih
    simp only [splitNl, hs]
    split
    · -- chunk boundary: last segment unchanged
      cases stl with
      | nil => simpa using ih
      | cons s2 stl' => simpa [List.getLastD_eq_getLast?] using ih
    · rename_i hc
      cases stl with
      | nil =>
        -- the unique segment grows by `c` at the front
        intro x hx
        simp only [List.getLastD] at hx ih ⊢
        rcases List.mem_cons.mp (by simpa using hx) with rfl | hmem
        · simpa using hc
        · exact ih x (by simpa using hmem)
      | cons s2 stl' =>
        simpa [List.getLastD_eq_getLast?] using ih

/-- A newline-free string is a single segment. -/
theorem splitNl_no_nl : ∀ u : List Char, (∀ c ∈ u, c ≠ '\n') → splitNl u = [u] := by
  intro u
  induction u with
  | nil => intro _; rfl
  | cons c u' ih =>
    intro h
    have hc : (c == '\n') = false := by
      simpa using h c (by simp)
    simp only [splitNl, hc, Bool.false_eq_true, if_false,
      ih (fun x hx => h x (by simp [hx]))]

/-- Decomposition of `splitNl` over an append: the complete segments of
`u`, a merged segment joining the trailing segment of `u` with the
leading segment of `v`, and the remaining segments of `v`. -/
theorem splitNl_append_struct : ∀ u v : List Char,
    splitNl (u ++ v) =
      (splitNl u).dropLast ++
        ((splitNl u).getLastD [] ++ (splitNl v).headD []) :: (splitNl v).tail := by
  intro u
  induction u with
  | nil =>
    intro v
    obtain ⟨bh, btl, hb⟩ : ∃ bh btl, splitNl v = bh :: btl := by
      cases hu : splitNl v with
      | nil => exact absurd hu (splitNl_ne_nil v)
      | cons a b => exact ⟨a, b, rfl⟩
    simp [splitNl, hb]
  | cons c u' ih =>
    intro v
    obtain ⟨sh, stl, hs⟩ : ∃ sh stl, splitNl u' = sh :: stl := by
      cases hu : splitNl u' with
      | nil => exact absurd hu (splitNl_ne_nil u')
      | cons a b => exact ⟨a, b, rfl⟩
    rw [List.cons_append]
    simp only [splitNl]
    rw [ih v, hs]
    split
    · -- `c` is a newline: a fresh empty segment is prepended on both sides
      cases stl with
      | nil => simp
      | cons s2 stl' => simp [List.getLastD_eq_getLast?]
    · -- `c` extends the first segment on both sides
      cases stl with
      | nil => simp
      | cons s2 stl' => simp [List.getLastD_eq_getLast?]

/-- Feeding a second chunk composes: the handler state after `a` then `b`
is the state after the single chunk `a ++ b`. -/
theorem processChunk_append (st : StreamState) (a b : List Char) :
    processChunk (processChunk st a) b = processChunk st (a ++ b) := by
  obtain ⟨bh, btl, hb⟩ : ∃ bh btl, splitNl b = bh :: btl := by
    cases hu : splitNl b with
    | nil => exact absurd hu (splitNl_ne_nil b)
    | cons x y => exact ⟨x, y, rfl⟩
  have hL1 : ∀ c ∈ (splitNl (st.buffer ++ a)).getLastD [], c ≠ '\n' :=
    splitNl_last_no_nl _
  have h1 : splitNl ((splitNl (st.buffer ++ a)).getLastD [] ++ b)
      = ((splitNl (st.buffer ++ a)).getLastD [] ++ bh) :: btl := by
    rw [splitNl_append_struct, splitNl_no_nl _ hL1, hb]
    rfl
  have h2 : splitNl (st.buffer ++ (a ++ b))
      = (splitNl (st.buffer ++ a)).dropLast ++
          ((splitNl (st.buffer ++ a)).getLastD [] ++ bh) :: btl := by
    rw [← List.append_assoc, splitNl_append_struct (st.buffer ++ a) b, hb]
    rfl
  simp only [processChunk, h1, h2]
  refine congrArg₂ StreamState.mk ?_ ?_
  · rw [getLastD_append_cons]
  · rw [List.dropLast_append_of_ne_nil _ (by simp), List.foldl_append]

/-- Claim C9: the streaming parser is invariant under chunk boundaries —
feeding any chunk sequence through the pending-partial-line buffer gives
the same handler state (in particular the same accumulated output) as
feeding the concatenated stream as one chunk; and a JSON line split
mid-object across two chunks is parsed once completed, as the concrete
second conjunct shows. -/
theorem C9_theorem :
    (∀ chunks : List (List Char),
      runChunks chunks = processChunk initState chunks.flatten) ∧
    (runChunks [("\x7b\"type\":\"result\",\"res").data, ("ult\":\"hi\"\x7d\n").data]).finalOutput
      = "hi" := by
  constructor
  · have key : ∀ (cs : List (List Char)) (st : StreamState),
        (∀ c ∈ st.buffer, c ≠ '\n') →
        cs.foldl processChunk st = processChunk st cs.flatten := by
      intro cs
      induction cs with
      | nil =>
        intro st hst
        simp only [List.foldl_nil, List.flatten_nil]
        unfold processChunk
        rw [List.append_nil, splitNl_no_nl _ hst]
        rfl
      | cons c cs' ih =>
        intro st hst
        simp only [List.foldl_cons, List.flatten_cons]
        rw [ih (processChunk st c)
          (fun x hx => splitNl_last_no_nl (st.buffer ++ c) x hx),
          processChunk_append]
    intro chunks
    exact key chunks initState (by simp [initState])
  · decide

/-! ### Review mode (C1) and tag mode (C10) -/

/-- Claim C1 (amended): review mode does NOT apply the Diff Filter — for
every configuration with a PR id, the Process Runner is invoked iff the
raw local diff is non-empty, an empty raw diff terminates with
`reviewPosted:false` (no invocation, no prompt), and on invocation the
prompt is built from the UNFILTERED local diff (the project
include/exclude globs are never consulted). -/
theorem C1_theorem :
    ∀ (cfg : Config) (env : ReviewEnv) (pid : Int), cfg.prId = some pid →
      ((runReviewMode cfg env).claudeInvoked = false ↔ env.localDiff = "") ∧
      (env.localDiff = "" →
        (runReviewMode cfg env).result.reviewPosted = false ∧
        (runReviewMode cfg env).promptSent = none) ∧
      (env.localDiff ≠ "" →
        (runReviewMode cfg env).promptSent =
          some (buildReviewPrompt (reviewParams cfg env)) ∧
        (reviewParams cfg env).diff = env.localDiff) := by
  intro cfg env pid hpid
  by_cases hd : env.localDiff = ""
  · have hd' : (env.localDiff == "") = true := by simpa using hd
    simp only [runReviewMode, hpid, hd', if_true]
    exact ⟨by simp [hd], fun _ => ⟨by trivial, by trivial⟩, fun h => absurd hd h⟩
  · have hd' : (env.localDiff == "") = false := by simpa using hd
    simp only [runReviewMode, hpid, hd', Bool.false_eq_true, if_false]
    have hinv :
        (if (!env.claudeResult.success) = true then
            ({ result := { success := false, reviewPosted := false,
                           error := env.claudeResult.error }
               claudeInvoked := true
               promptSent := some (buildReviewPrompt (reviewParams cfg env))
               postedComment := none } : ReviewOutcome)
          else if (!(env.claudeResult.output == "") && !(cfg.bitbucketToken == "")) = true then
            if env.postCommentOk = true then
              { result := { success := true, reviewPosted := true, error := none }
                claudeInvoked := true
                promptSent := some (buildReviewPrompt (reviewParams cfg env))
                postedComment := some (formatReviewComment env.claudeResult.output) }
            else
              { result := { success := true, reviewPosted := false,
                            error := some ("Failed to post comment") }
                claudeInvoked := true
                promptSent := some (buildReviewPrompt (reviewParams cfg env))
                postedComment := some (formatReviewComment env.claudeResult.output) }
          else
            { result := { success := true, reviewPosted := false, error := none }
              claudeInvoked := true
              promptSent := some (buildReviewPrompt (reviewParams cfg env))
              postedComment := none }).claudeInvoked = true := by
      split
      · rfl
      · split
        · split
          · rfl
          · rfl
        · rfl
    refine ⟨?_, fun h => absurd h hd, fun _ => ⟨?_, rfl⟩⟩
    · constructor
      · intro h
        rw [hinv] at h
        exact absurd h (by simp)
      · intro h
        exact absurd h hd
    · split
      · rfl
      · split
        · split
          · rfl
          · rfl
        · rfl

/-- Counterexample to C1 as stated: with project exclude globs that
filter the whole diff away (`filterDiffByPatterns` returns the empty
string), review mode still invokes the Process Runner, and the prompt it
sends contains the unfiltered diff. -/
theorem C1_counterexample :
    filterDiffByPatterns envReview.localDiff cfgReview.reviewIncludePatterns
      cfgReview.reviewExcludePatterns = "" ∧
    (runReviewMode cfgReview envReview).claudeInvoked = true ∧
    (runReviewMode cfgReview envReview).promptSent =
      some (buildReviewPrompt (reviewParams cfgReview envReview)) ∧
    (reviewParams cfgReview envReview).diff = diffEx := by
  refine ⟨by decide, rfl, rfl, rfl⟩

/-- Witness for C1 at the concrete fixture. -/
theorem C1_witness :
    ((runReviewMode cfgReview envReview).claudeInvoked = false ↔
      envReview.localDiff = "") ∧
    (envReview.localDiff = "" →
      (runReviewMode cfgReview envReview).result.reviewPosted = false ∧
      (runReviewMode cfgReview envReview).promptSent = none) ∧
    (envReview.localDiff ≠ "" →
      (runReviewMode cfgReview envReview).promptSent =
        some (buildReviewPrompt (reviewParams cfgReview envReview)) ∧
      (reviewParams cfgReview envReview).diff = envReview.localDiff) :=
  C1_theorem cfgReview envReview 1 rfl

/-- Claim C10 (amended): in tag mode, whenever the invocation succeeds
with NON-EMPTY output and a host token is configured, the orchestrator
posts the output as a reply to the trigger comment, returning
`responded:true` with the new reply's id when the post succeeds (and
`responded:false` when the post fails); when no host token is configured
it returns `responded:false` and no reply is posted. -/
theorem C10_theorem :
    ∀ (cfg : Config) (env : TagEnv) (pid : Int) (tc : PRComment),
      cfg.prId = some pid →
      findTriggerComment env.comments cfg.triggerPhrase = some tc →
      extractRequest tc.raw cfg.triggerPhrase ≠ "" →
      env.claudeResult.success = true →
      ((env.claudeResult.output ≠ "" → cfg.bitbucketToken ≠ "" →
          (runTagMode cfg env).replyPosted = some (tc.id, env.claudeResult.output) ∧
          (∀ rid : Int, env.replyResult = some rid →
            (runTagMode cfg env).result.responded = true ∧
            (runTagMode cfg env).result.commentId = some rid) ∧
          (env.replyResult = none →
            (runTagMode cfg env).result.responded = false ∧
            (runTagMode cfg env).result.commentId = none)) ∧
       (cfg.bitbucketToken = "" →
          (runTagMode cfg env).result.responded = false ∧
          (runTagMode cfg env).replyPosted = none)) := by
  intro cfg env pid tc hpid htc hreq hsucc
  have hne : env.comments.isEmpty = false := by
    cases hc : env.comments with
    | nil =>
        rw [hc] at htc
        simp [findTriggerComment, sortByTimeDesc] at htc
    | cons a b => simp [hc]
  have hreq' : (extractRequest tc.raw cfg.triggerPhrase == "") = false := by
    simpa using hreq
  have hsucc' : (!env.claudeResult.success) = false := by
    simp [hsucc]
  simp only [runTagMode, hpid, hne, Bool.false_eq_true, if_false, htc, hreq',
    hsucc']
  constructor
  · intro hout htok
    have hout' : (env.claudeResult.output == "") = false := by simpa using hout
    have htok' : (cfg.bitbucketToken == "") = false := by simpa using htok
    simp only [hout', htok', Bool.not_false, Bool.and_self, if_true]
    refine ⟨?_, ?_, ?_⟩
    · cases hr : env.replyResult <;> rfl
    · intro rid hr
      rw [hr]
      exact ⟨rfl, rfl⟩
    · intro hr
      rw [hr]
      exact ⟨rfl, rfl⟩
  · intro htok
    have htok' : (cfg.bitbucketToken == "") = true := by simpa using htok
    simp only [htok', Bool.not_true, Bool.and_false, Bool.false_eq_true, if_false]
    exact ⟨by trivial, by trivial⟩

/-- Counterexample to C10 as stated: a successful invocation with a
configured host token whose output is the EMPTY string is not posted —
the mode returns `responded:false` and never calls `replyToComment`. -/
theorem C10_counterexample :
    envTagEmpty.claudeResult.success = true ∧
    cfgTag.bitbucketToken ≠ "" ∧
    (runTagMode cfgTag envTagEmpty).result.responded = false ∧
    (runTagMode cfgTag envTagEmpty).replyPosted = none := by
  refine ⟨rfl, by decide, by decide, by decide⟩

/-- Witness for C10 at the concrete fixture with non-empty output. -/
theorem C10_witness :
    (runTagMode cfgTag envTagOk).replyPosted = some ((7 : Int), ("done" : String)) ∧
    (runTagMode cfgTag envTagOk).result.responded = true ∧
    (runTagMode cfgTag envTagOk).result.commentId = some 99 := by
  have h := C10_theorem cfgTag envTagOk 2 commentTag rfl (by decide) (by decide) rfl
  have h1 := h.1 (by decide) (by decide)
  exact ⟨h1.1, (h1.2.1 99 rfl).1, (h1.2.1 99 rfl).2⟩

end ClaudeBitbucket
